import Mathlib

/-!
Shallow embedding of the mpc-bench communication layer.

This file embeds the communication layer of the `mpc-bench` repository
(`src/comm.rs` and the relevant part of `src/lib.rs`) in Lean and proves
properties of it.

Modelling conventions:
* Instants and durations are natural numbers (nanoseconds); `Instant` and
  `Duration` arithmetic that cannot underflow at the modelled call sites is
  plain `Nat` arithmetic.
* Rust `usize` values are natural numbers; the one narrowing cast in the
  source (`bytes.len() as u32` in `Channels::receive`) is modelled explicitly
  as reduction modulo `2^32`.
* A `usize` subtraction that can underflow is modelled by an explicit check:
  underflow (a debug-build panic, or a wrapped index that is then out of
  bounds in release builds) is reported as a failure value.
* The `mpsc` channel owned by an endpoint is modelled by the list `inbound` of
  messages pending on it, in the order `recv()` would return them; `recv()`
  on an exhausted list is the `blocked` outcome (the real call would block).
* `Queue` from the `queues` crate is a FIFO: `add` appends at the back,
  `remove` pops the front; it is modelled by a `List` (front = head).
* Sends are modelled by returning the list of `(destination id, message)`
  pushes performed, since each push lands on the destination party's own
  inbound conduit.
-/

namespace MpcBench

/-- Rust struct `Message` from `src/comm.rs`: `arrival_time`, `from_id`, `contents`. -/
structure Message where
  arrivalTime : Nat
  fromId : Nat
  contents : List Nat
deriving DecidableEq

/-- The reorder buffers: one FIFO queue of `(arrival_time, contents)` pairs
per reduced sender id (field `buffer` of `Channels`). -/
abbrev Buffers := List (List (Nat × List Nat))

/-- The state of one party's `Channels` endpoint (`src/comm.rs`).
`senders` holds, for each outbound slot, the id of the party whose inbound
conduit that `Sender` handle pushes into; `inbound` is the content of the
endpoint's own `Receiver`. -/
structure ChState where
  id : Nat
  senders : List Nat
  buffer : Buffers
  sentBytes : List Nat
  latency : Nat
  secondsPerByte : Nat
  nextVacancy : Nat
  inbound : List Message
deriving DecidableEq

/-- Outcomes of `Channels::receive` other than returning a byte stream:
the blocking `recv()` never being satisfied, a panic (index underflow or
out-of-bounds), or the `debug_assert_ne!` firing. -/
inductive RecvErr
  | blocked
  | panicked
  | assertFailed
deriving DecidableEq

/-- The `reduced_id` computation of `Channels::receive`: sender ids below
`self.id` keep their value, ids above it are shifted down by one.
(The `usize` subtraction `from_id - 1` underflows when `from_id = 0` is not
below `self.id`; call sites model that case separately.) -/
def reducedId (selfId fromId : Nat) : Nat :=
  if fromId < selfId then fromId else fromId - 1

/-- The cast `bytes.len() as u32` in `Channels::receive`: a narrowing cast,
reduction modulo `2^32`. -/
def u32cast (n : Nat) : Nat := n % 4294967296

/-- Filing one message that is not from the requested sender into its reorder
buffer slot (the `else` path of the pull loop in `Channels::receive`).
`none` models a panic: either the `usize` underflow in `message.from_id - 1`
(when `from_id = 0` is not below `self.id`) or an out-of-bounds buffer index. -/
def fileAway (selfId : Nat) (m : Message) (buf : Buffers) : Option Buffers :=
  if m.fromId < selfId then
    if m.fromId < buf.length then
      some (buf.set m.fromId (buf.getD m.fromId [] ++ [(m.arrivalTime, m.contents)]))
    else none
  else
    if m.fromId = 0 then none
    else
      if m.fromId - 1 < buf.length then
        some (buf.set (m.fromId - 1) (buf.getD (m.fromId - 1) [] ++ [(m.arrivalTime, m.contents)]))
      else none

/-- The pull loop of `Channels::receive`: repeatedly `recv()` from the shared
inbound conduit; a message from the requested sender is returned together
with the updated buffers and the remaining conduit content, any other message
is filed into its sender's reorder buffer slot. -/
def demuxLoop (selfId fromId : Nat) :
    List Message → Buffers → Except RecvErr ((Nat × List Nat) × Buffers × List Message)
  | [], _ => .error .blocked
  | m :: rest, buf =>
    if m.fromId = fromId then
      .ok ((m.arrivalTime, m.contents), buf, rest)
    else
      match fileAway selfId m buf with
      | none => .error .panicked
      | some buf' => demuxLoop selfId fromId rest buf'

/-- The demultiplexing `match` of `Channels::receive`
(`let (arrival_time, bytes) = match self.buffer[reduced_id].size() { ... }`):
consult the requested sender's reorder buffer slot first; if it is empty, run
the pull loop. `.error .panicked` models the `usize` underflow in
`reduced_id` (requested `from_id = 0` not below `self.id`) or an
out-of-bounds buffer index. -/
def receiveMatch (c : ChState) (fromId : Nat) :
    Except RecvErr ((Nat × List Nat) × Buffers × List Message) :=
  if ¬ fromId < c.id ∧ fromId = 0 then .error .panicked
  else
    if reducedId c.id fromId < c.buffer.length then
      match c.buffer.getD (reducedId c.id fromId) [] with
      | [] => demuxLoop c.id fromId c.inbound c.buffer
      | e :: restQueue => .ok (e, c.buffer.set (reducedId c.id fromId) restQueue, c.inbound)
    else .error .panicked

/-- The tail of `Channels::receive` after the demultiplexing `match`:
`start_time = max(next_vacancy, arrival_time)`; `next_vacancy` is set to
`start_time + seconds_per_byte * (bytes.len() as u32)`; the returned
`DelayedByteIterator` is represented by its start time and its bytes. -/
def finishReceive (c : ChState) (arrival : Nat) (bytes : List Nat)
    (buf : Buffers) (inbound : List Message) : (Nat × List Nat) × ChState :=
  ((max c.nextVacancy arrival, bytes),
   { c with
     buffer := buf
     inbound := inbound
     nextVacancy := max c.nextVacancy arrival + c.secondsPerByte * u32cast bytes.length })

/-- Body of `Channels::receive` without the `debug_assert_ne!` guard. -/
def Channels.receiveCore (c : ChState) (fromId : Nat) :
    Except RecvErr ((Nat × List Nat) × ChState) :=
  match receiveMatch c fromId with
  | .error e => .error e
  | .ok (ab, buf, inbound) => .ok (finishReceive c ab.1 ab.2 buf inbound)

/-- Full `Channels::receive`, including the `debug_assert_ne!(*from_id, self.id)`
guard, which is compiled in only when `debugAssertions` is set. -/
def Channels.receive (debugAssertions : Bool) (c : ChState) (fromId : Nat) :
    Except RecvErr ((Nat × List Nat) × ChState) :=
  if debugAssertions ∧ fromId = c.id then .error .assertFailed
  else Channels.receiveCore c fromId

/-- Rust `Channels::add_sent_bytes`: `self.sent_bytes[*to_id] += byte_count`;
`none` models the index-out-of-bounds panic. -/
def addSentBytes (sent : List Nat) (byteCount toId : Nat) : Option (List Nat) :=
  if toId < sent.length then some (sent.set toId (sent.getD toId 0 + byteCount))
  else none

/-- Rust `Channels::send`: push one message with `from_id = self.id` and
`arrival_time = now + latency` on the sender slot indexed by `to_id`, then
add `message.len()` to the `to_id` entry of `sent_bytes`. The returned push
list records the destination party id of the slot used. -/
def Channels.send (c : ChState) (message : List Nat) (toId now : Nat) :
    Option (ChState × List (Nat × Message)) :=
  if toId < c.senders.length then
    match addSentBytes c.sentBytes message.length toId with
    | none => none
    | some sent =>
        some ({ c with sentBytes := sent },
          [(c.senders.getD toId 0, ⟨now + c.latency, c.id, message⟩)])
  else none

/-- Rust `Channels::broadcast`: push one message on every sender slot (the loop
`for sender in &self.senders`), then run
`for i in 0..self.senders.len() { self.add_sent_bytes(byte_count, &i) }`. -/
def Channels.broadcast (c : ChState) (message : List Nat) (now : Nat) :
    Option (ChState × List (Nat × Message)) :=
  let pushes := c.senders.map fun dest => (dest, (⟨now + c.latency, c.id, message⟩ : Message))
  match (List.range c.senders.length).foldlM
      (fun sent i => addSentBytes sent message.length i) c.sentBytes with
  | none => none
  | some sent => some ({ c with sentBytes := sent }, pushes)

/-- Rust `Channels::new`: `buffer` gets `sender_count - 1` empty queues and
`sent_bytes` gets `sender_count` zero counters. `none` models the `usize`
underflow of `sender_count - 1` when `senders` is empty (a debug-build panic;
in release the subtraction wraps and the construction is equally broken). -/
def Channels.new (id : Nat) (senders : List Nat) (latency secondsPerByte now : Nat) :
    Option ChState :=
  match senders.length with
  | 0 => none
  | k + 1 =>
      some ⟨id, senders, List.replicate k [], List.replicate (k + 1) 0,
            latency, secondsPerByte, now, []⟩

/-- Rust `FullMesh::instantiate`: create one conduit per party; after each
creation, a clone of the new producer is appended to every party's sender
vector (`for sender_vec in senders.iter_mut()`), so the sender built for
conduit `k` — whose consumer end becomes party `k`'s `receiver` — lands in
slot `k` of every vector. Each sender handle is represented by the id of the
party whose conduit it pushes into. The endpoints are then built with
`Channels::new`. -/
def FullMesh.instantiate (latency secondsPerByte nParties now : Nat) :
    Option (List ChState) :=
  let senders := (List.range nParties).foldl
    (fun svecs k => svecs.map fun v => v ++ [k]) (List.replicate nParties [])
  ((List.range nParties).zip senders).mapM
    fun p => Channels.new p.1 p.2 latency secondsPerByte now

/-- Model of the handling of the per-repetition input count in
`Protocol::evaluate` (`src/lib.rs`): `debug_assert_eq!(inputs.len(), n_parties)`
aborts (result `none`) only when debug assertions are compiled in; otherwise the
workers are spawned by zipping the parties (one per id in `0..n_parties`, as are
the channels and the stats records) with the inputs, so the number of spawned
workers is the shorter of the two lengths. The thread spawning and joining
itself is not modelled. -/
def evaluateWorkers (debugAssertions : Bool) (nParties inputsLen : Nat) : Option Nat :=
  if debugAssertions ∧ ¬ inputsLen = nParties then none
  else some (min nParties inputsLen)

/-- The subsequence of `(arrival_time, contents)` pairs carried by messages
from sender `s` in a list of messages, in list order. -/
def msgsFrom (s : Nat) (l : List Message) : List (Nat × List Nat) :=
  (l.filter fun m => m.fromId = s).map fun m => (m.arrivalTime, m.contents)

/-- All messages from sender `s` that the endpoint has not yet handed to its
caller: first the content of `s`'s reorder buffer slot, then `s`'s messages
still pending on the inbound conduit, both in arrival order. -/
def pendingFrom (c : ChState) (s : Nat) : List (Nat × List Nat) :=
  c.buffer.getD (reducedId c.id s) [] ++ msgsFrom s c.inbound

/-- Well-formedness of an endpoint of an `n`-party full mesh: its id is a
party id, it has `n - 1` reorder buffer slots (as built by `Channels::new`
from `n` senders), and every message pending on its inbound conduit was sent
by a valid party other than itself. -/
def ChState.wf (c : ChState) (n : Nat) : Prop :=
  c.id < n ∧ c.buffer.length = n - 1 ∧ ∀ m ∈ c.inbound, m.fromId < n ∧ m.fromId ≠ c.id

instance (c : ChState) (n : Nat) : Decidable (c.wf n) := by
  unfold ChState.wf
  exact inferInstance

/-- Result of `k` successive calls of `Channels::receive` (release build) for
the same sender: the list of payload byte vectors the returned streams carry,
in call order, together with the final endpoint state. -/
def receiveN (p : Nat) : ChState → Nat → Except RecvErr (List (List Nat) × ChState)
  | c, 0 => .ok ([], c)
  | c, k + 1 =>
    match Channels.receiveCore c p with
    | .error e => .error e
    | .ok (sb, c') =>
      match receiveN p c' k with
      | .error e => .error e
      | .ok (l, c'') => .ok (sb.2 :: l, c'')

/-- Result of sending a list of payloads to the same peer `q`, one
`Channels::send` call per payload. -/
def sendMany (q now : Nat) : ChState → List (List Nat) → Option (ChState × List (Nat × Message))
  | c, [] => some (c, [])
  | c, pl :: rest =>
    match Channels.send c pl q now with
    | none => none
    | some (c', pushes) =>
      match sendMany q now c' rest with
      | none => none
      | some (c'', more) => some (c'', pushes ++ more)

/-- Whether a receive outcome is the `debug_assert_ne!` firing. -/
def isAssertFailed {α : Type} : Except RecvErr α → Bool
  | .error .assertFailed => true
  | _ => false

/-- Endpoint 0 of `FullMesh::instantiate(2)` with zero overhead, used as a
concrete evaluation point. -/
def meshEp0 : ChState := ⟨0, [0, 1], [[]], [0, 0], 0, 0, 0, []⟩

/-- Party 1 of a zero-overhead 2-party mesh with two messages from party 0
pending on its inbound conduit, used as a concrete evaluation point. -/
def twoPending : ChState :=
  ⟨1, [0, 1], [[]], [0, 0], 0, 0, 0, [⟨0, 0, [42]⟩, ⟨0, 0, [43]⟩]⟩

/-- Party 1 of a 2-party mesh with one buffered message from party 0
(arrival time 5, one byte), 2 simulated seconds per byte and the link busy
until instant 3, used as a concrete evaluation point. -/
def timedBefore : ChState := ⟨1, [0, 1], [[(5, [9])]], [0, 0], 0, 2, 3, []⟩

/-- State of `timedBefore` after one receive from party 0: the transfer
starts at `max 3 5 = 5` and occupies the link until `5 + 2 * 1 = 7`. -/
def timedAfter : ChState := ⟨1, [0, 1], [[]], [0, 0], 0, 2, 7, []⟩

/-- Party 1 of a 2-party mesh holding one buffered message from party 0 whose
payload is `2^32` zero bytes, with one simulated second per byte. -/
def hugePayload : ChState :=
  ⟨1, [0, 1], [[(0, List.replicate 4294967296 0)]], [0, 0], 0, 1, 0, []⟩

/-- State of `hugePayload` after receiving from party 0: the cast
`bytes.len() as u32` wraps `2^32` to `0`, so `next_vacancy` stays 0. -/
def hugeAfter : ChState := ⟨1, [0, 1], [[]], [0, 0], 0, 1, 0, []⟩

/-- Party 1 of a zero-overhead 2-party mesh with one valid inbound message
from party 0, used as a concrete evaluation point. -/
def onePending : ChState := ⟨1, [0, 1], [[]], [0, 0], 0, 0, 0, [⟨0, 0, [7]⟩]⟩

section Helpers

variable {α : Type}

lemma getD_set_self (l : List α) (i : Nat) (x d : α) (h : i < l.length) :
    (l.set i x).getD i d = x := by
  rw [List.getD_eq_getElem?_getD, List.getElem?_set]
  simp [h]

lemma getD_set_ne (l : List α) (i j : Nat) (x d : α) (h : i ≠ j) :
    (l.set i x).getD j d = l.getD j d := by
  rw [List.getD_eq_getElem?_getD, List.getElem?_set, if_neg h, ← List.getD_eq_getElem?_getD]

lemma mapM_option_eq_map {β : Type} (f : α → Option β) (g : α → β) :
    ∀ l : List α, (∀ a ∈ l, f a = some (g a)) → l.mapM f = some (l.map g) := by
  intro l
  induction l with
  | nil => intro _; rfl
  | cons x xs ih =>
    intro h
    rw [List.mapM_cons, h x (by simp), ih (fun a ha => h a (by simp [ha]))]
    rfl

lemma zip_replicate_right {β : Type} (b : β) :
    ∀ l : List α, l.zip (List.replicate l.length b) = l.map fun x => (x, b) := by
  intro l
  induction l with
  | nil => rfl
  | cons x xs ih => rw [List.length_cons, List.replicate_succ, List.zip_cons_cons, ih]; rfl

end Helpers

lemma msgsFrom_nil (s : Nat) : msgsFrom s [] = [] := rfl

lemma msgsFrom_cons (s : Nat) (m : Message) (l : List Message) :
    msgsFrom s (m :: l) =
      if m.fromId = s then (m.arrivalTime, m.contents) :: msgsFrom s l else msgsFrom s l := by
  unfold msgsFrom
  rw [List.filter_cons]
  by_cases h : m.fromId = s <;> simp [h]

lemma reducedId_lt (n selfId s : Nat) (hid : selfId < n) (hs : s < n) (hsid : s ≠ selfId) :
    reducedId selfId s < n - 1 := by
  unfold reducedId
  split <;> omega

lemma reducedId_inj (selfId s t : Nat) (hs : s ≠ selfId) (ht : t ≠ selfId)
    (h : reducedId selfId s = reducedId selfId t) : s = t := by
  unfold reducedId at h
  split at h <;> split at h <;> omega

lemma reducedId_surj (n selfId r : Nat) (hid : selfId < n) (hr : r < n - 1) :
    ∃ s, s < n ∧ s ≠ selfId ∧ reducedId selfId s = r := by
  by_cases h : r < selfId
  · exact ⟨r, by omega, by omega, by unfold reducedId; simp [h]⟩
  · refine ⟨r + 1, by omega, by omega, ?_⟩
    unfold reducedId
    rw [if_neg (by omega)]
    omega

lemma fileAway_eq (selfId : Nat) (m : Message) (buf : Buffers)
    (h1 : m.fromId ≠ selfId) (h2 : reducedId selfId m.fromId < buf.length) :
    fileAway selfId m buf =
      some (buf.set (reducedId selfId m.fromId)
        (buf.getD (reducedId selfId m.fromId) [] ++ [(m.arrivalTime, m.contents)])) := by
  unfold fileAway reducedId at *
  by_cases h : m.fromId < selfId
  · rw [if_pos h] at h2
    simp [h, h2]
  · rw [if_neg h] at h2
    simp [h, h2]
    omega

/-- One full run of the pull loop of `Channels::receive`: under a well-formed
inbound stream it never panics; if a message from the requested sender `p` is
pending it returns the oldest one, leaves `p`'s reorder slot untouched and
preserves, for every other sender, the concatenation of that sender's reorder
slot and its still-pending messages; otherwise it blocks and `p` indeed has
nothing pending. -/
lemma demuxLoop_spec (n selfId p : Nat) (hid : selfId < n) (_hp : p < n) (hpid : p ≠ selfId) :
    ∀ (inbound : List Message) (buf : Buffers),
      buf.length = n - 1 →
      (∀ m ∈ inbound, m.fromId < n ∧ m.fromId ≠ selfId) →
      (∃ a bs buf' rest,
        demuxLoop selfId p inbound buf = .ok ((a, bs), buf', rest) ∧
        buf'.length = n - 1 ∧
        msgsFrom p inbound = (a, bs) :: msgsFrom p rest ∧
        buf'.getD (reducedId selfId p) [] = buf.getD (reducedId selfId p) [] ∧
        (∀ s, s < n → s ≠ selfId → s ≠ p →
          buf'.getD (reducedId selfId s) [] ++ msgsFrom s rest
            = buf.getD (reducedId selfId s) [] ++ msgsFrom s inbound) ∧
        (∀ m ∈ rest, m.fromId < n ∧ m.fromId ≠ selfId)) ∨
      (demuxLoop selfId p inbound buf = .error .blocked ∧ msgsFrom p inbound = []) := by
  intro inbound
  induction inbound with
  | nil =>
    intro buf _ _
    right
    exact ⟨rfl, rfl⟩
  | cons m rest ih =>
    intro buf hb hv
    obtain ⟨hm1, hm2⟩ := hv m (List.mem_cons_self m rest)
    have hv' : ∀ x ∈ rest, x.fromId < n ∧ x.fromId ≠ selfId :=
      fun x hx => hv x (List.mem_cons_of_mem m hx)
    by_cases hmp : m.fromId = p
    · left
      refine ⟨m.arrivalTime, m.contents, buf, rest, ?_, hb, ?_, rfl, ?_, hv'⟩
      · simp only [demuxLoop, if_pos hmp]
      · rw [msgsFrom_cons, if_pos hmp]
      · intro s hs hsid hsp
        rw [msgsFrom_cons, if_neg (by omega)]
    · have hred : reducedId selfId m.fromId < buf.length := by
        rw [hb]
        exact reducedId_lt n selfId m.fromId hid hm1 hm2
      have hfile := fileAway_eq selfId m buf hm2 hred
      set r := reducedId selfId m.fromId with hr
      set buf₂ := buf.set r (buf.getD r [] ++ [(m.arrivalTime, m.contents)]) with hbuf₂
      have hstep : demuxLoop selfId p (m :: rest) buf = demuxLoop selfId p rest buf₂ := by
        simp only [demuxLoop, if_neg hmp, hfile]
      have hb₂ : buf₂.length = n - 1 := by rw [hbuf₂, List.length_set, hb]
      have hrne : ∀ s, s ≠ selfId → s ≠ m.fromId → r ≠ reducedId selfId s :=
        fun s hsid hsm hcontra => hsm (reducedId_inj selfId s m.fromId hsid hm2 hcontra.symm)
      rcases ih buf₂ hb₂ hv' with
        ⟨a, bs, buf', rest', hrun, hlen, hmsgs, hslotp, hchain, hrest⟩ | ⟨hrun, hmsgs⟩
      · left
        refine ⟨a, bs, buf', rest', by rw [hstep]; exact hrun, hlen, ?_, ?_, ?_, hrest⟩
        · rw [msgsFrom_cons, if_neg hmp]
          exact hmsgs
        · rw [hslotp, hbuf₂, getD_set_ne _ _ _ _ _ (hrne p hpid (fun h => hmp h.symm))]
        · intro s hs hsid hsp
          rw [msgsFrom_cons]
          by_cases hsm : m.fromId = s
          · rw [if_pos hsm, hchain s hs hsid hsp, hbuf₂]
            subst hsm
            rw [getD_set_self _ _ _ _ hred, List.append_assoc]
            rfl
          · rw [if_neg hsm, hchain s hs hsid hsp, hbuf₂,
              getD_set_ne _ _ _ _ _ (hrne s hsid (fun h => hsm h.symm))]
      · right
        constructor
        · rw [hstep]
          exact hrun
        · rw [msgsFrom_cons, if_neg hmp]
          exact hmsgs

lemma receiveMatch_eq_demux (c : ChState) (p : Nat)
    (hguard : ¬ (¬ p < c.id ∧ p = 0)) (hredp : reducedId c.id p < c.buffer.length)
    (hslot : c.buffer.getD (reducedId c.id p) [] = []) :
    receiveMatch c p = demuxLoop c.id p c.inbound c.buffer := by
  unfold receiveMatch
  rw [if_neg hguard, if_pos hredp, hslot]

lemma receiveMatch_eq_buffer (c : ChState) (p : Nat)
    (hguard : ¬ (¬ p < c.id ∧ p = 0)) (hredp : reducedId c.id p < c.buffer.length)
    (e : Nat × List Nat) (q : List (Nat × List Nat))
    (hslot : c.buffer.getD (reducedId c.id p) [] = e :: q) :
    receiveMatch c p = .ok (e, c.buffer.set (reducedId c.id p) q, c.inbound) := by
  unfold receiveMatch
  rw [if_neg hguard, if_pos hredp, hslot]

lemma receiveCore_of_match_ok (c : ChState) (p : Nat) (e : Nat × List Nat)
    (b : Buffers) (i : List Message) (h : receiveMatch c p = .ok (e, b, i)) :
    Channels.receiveCore c p = .ok (finishReceive c e.1 e.2 b i) := by
  unfold Channels.receiveCore
  rw [h]

lemma receiveCore_of_match_ok2 (c : ChState) (p a : Nat) (bs : List Nat)
    (b : Buffers) (i : List Message) (h : receiveMatch c p = .ok ((a, bs), b, i)) :
    Channels.receiveCore c p = .ok (finishReceive c a bs b i) := by
  unfold Channels.receiveCore
  rw [h]

lemma receiveCore_of_match_err (c : ChState) (p : Nat) (err : RecvErr)
    (h : receiveMatch c p = .error err) :
    Channels.receiveCore c p = .error err := by
  unfold Channels.receiveCore
  rw [h]

/-- One call of `Channels::receive` (release build) for a valid sender `p` on
a well-formed endpoint either returns the oldest pending message of `p` —
with start time `max(next_vacancy, arrival_time)`, advancing `next_vacancy`
by the transfer duration — while leaving every other sender's pending
sequence intact, or blocks, in which case nothing from `p` is pending.
It never panics. -/
lemma receiveCore_spec (n : Nat) (c : ChState) (p : Nat)
    (hwf : c.wf n) (hp : p < n) (hpid : p ≠ c.id) :
    (∃ a bs c',
       Channels.receiveCore c p = .ok ((max c.nextVacancy a, bs), c') ∧
       pendingFrom c p = (a, bs) :: pendingFrom c' p ∧
       (∀ s, s < n → s ≠ c.id → s ≠ p → pendingFrom c' s = pendingFrom c s) ∧
       c'.wf n ∧ c'.id = c.id ∧ c'.secondsPerByte = c.secondsPerByte ∧
       c'.sentBytes = c.sentBytes ∧ c'.senders = c.senders ∧ c'.latency = c.latency ∧
       c'.nextVacancy = max c.nextVacancy a + c.secondsPerByte * u32cast bs.length) ∨
    (Channels.receiveCore c p = .error .blocked ∧ pendingFrom c p = []) := by
  obtain ⟨hid, hb, hv⟩ := hwf
  have hguard : ¬ (¬ p < c.id ∧ p = 0) := by omega
  have hredp : reducedId c.id p < c.buffer.length := by
    rw [hb]
    exact reducedId_lt n c.id p hid hp hpid
  cases hslot : c.buffer.getD (reducedId c.id p) [] with
  | cons e q =>
    left
    have hmatch := receiveMatch_eq_buffer c p hguard hredp e q hslot
    refine ⟨e.1, e.2,
      { c with
        buffer := c.buffer.set (reducedId c.id p) q
        nextVacancy := max c.nextVacancy e.1 + c.secondsPerByte * u32cast e.2.length },
      ?_, ?_, ?_, ?_, rfl, rfl, rfl, rfl, rfl, rfl⟩
    · rw [receiveCore_of_match_ok c p e _ _ hmatch]
      rfl
    · show c.buffer.getD (reducedId c.id p) [] ++ msgsFrom p c.inbound
        = (e.1, e.2) :: ((c.buffer.set (reducedId c.id p) q).getD (reducedId c.id p) []
            ++ msgsFrom p c.inbound)
      rw [hslot, getD_set_self _ _ _ _ hredp]
      rfl
    · intro s hs hsid hsp
      show (c.buffer.set (reducedId c.id p) q).getD (reducedId c.id s) []
            ++ msgsFrom s c.inbound
          = c.buffer.getD (reducedId c.id s) [] ++ msgsFrom s c.inbound
      rw [getD_set_ne _ _ _ _ _
        (fun h => hsp (reducedId_inj c.id s p hsid hpid h.symm))]
    · exact ⟨hid, by rw [List.length_set]; exact hb, hv⟩
  | nil =>
    have hmatch := receiveMatch_eq_demux c p hguard hredp hslot
    rcases demuxLoop_spec n c.id p hid hp hpid c.inbound c.buffer hb hv with
      ⟨a, bs, buf', rest, hrun, hlen, hmsgs, hslotp, hchain, hrest⟩ | ⟨hrun, hmsgs⟩
    · left
      refine ⟨a, bs,
        { c with
          buffer := buf'
          inbound := rest
          nextVacancy := max c.nextVacancy a + c.secondsPerByte * u32cast bs.length },
        ?_, ?_, ?_, ⟨hid, hlen, hrest⟩, rfl, rfl, rfl, rfl, rfl, rfl⟩
      · rw [receiveCore_of_match_ok c p (a, bs) buf' rest (by rw [hmatch]; exact hrun)]
        rfl
      · show c.buffer.getD (reducedId c.id p) [] ++ msgsFrom p c.inbound
          = (a, bs) :: (buf'.getD (reducedId c.id p) [] ++ msgsFrom p rest)
        rw [hslot, hslotp, hslot, hmsgs]
        rfl
      · intro s hs hsid hsp
        show buf'.getD (reducedId c.id s) [] ++ msgsFrom s rest
          = c.buffer.getD (reducedId c.id s) [] ++ msgsFrom s c.inbound
        exact hchain s hs hsid hsp
    · right
      constructor
      · exact receiveCore_of_match_err c p .blocked (by rw [hmatch]; exact hrun)
      · show c.buffer.getD (reducedId c.id p) [] ++ msgsFrom p c.inbound = []
        rw [hslot, hmsgs]
        rfl

lemma foldl_append_senders (l : List Nat) :
    ∀ (n : Nat) (acc : List Nat),
      l.foldl (fun svecs k => svecs.map fun v => v ++ [k]) (List.replicate n acc)
        = List.replicate n (acc ++ l) := by
  induction l with
  | nil => intro n acc; simp
  | cons k rest ih =>
    intro n acc
    rw [List.foldl_cons, List.map_replicate, ih n (acc ++ [k])]
    simp

/-- The sender-distribution loop of `FullMesh::instantiate` gives every party
the same sender vector: one handle per conduit, in conduit order. -/
lemma instantiate_senders (nP : Nat) :
    (List.range nP).foldl (fun svecs k => svecs.map fun v => v ++ [k])
        (List.replicate nP [])
      = List.replicate nP (List.range nP) := by
  have h := foldl_append_senders (List.range nP) nP []
  simpa using h

/-- Explicit form of the endpoints built by `FullMesh::instantiate`:
construction always succeeds, and party `id` receives `n` senders (one per
party, the one in slot `id` addressed to itself), `n - 1` empty reorder
buffer slots and `n` zeroed sent-byte counters. -/
lemma instantiate_eq (lat spb nP now : Nat) :
    FullMesh.instantiate lat spb nP now =
      some ((List.range nP).map fun id =>
        ⟨id, List.range nP, List.replicate (nP - 1) [], List.replicate nP 0,
         lat, spb, now, []⟩) := by
  have h1 : FullMesh.instantiate lat spb nP now
      = ((List.range nP).zip (List.replicate nP (List.range nP))).mapM
          (fun p => Channels.new p.1 p.2 lat spb now) := by
    unfold FullMesh.instantiate
    rw [instantiate_senders]
  have hz : (List.range nP).zip (List.replicate nP (List.range nP))
      = (List.range nP).map fun i => (i, List.range nP) := by
    have := zip_replicate_right (List.range nP) (List.range nP)
    rwa [List.length_range] at this
  rw [h1, hz]
  cases nP with
  | zero => rfl
  | succ m =>
    have hall : ∀ a ∈ (List.range (m + 1)).map fun i => (i, List.range (m + 1)),
        Channels.new a.1 a.2 lat spb now
          = some ⟨a.1, a.2, List.replicate m [], List.replicate (m + 1) 0,
                  lat, spb, now, []⟩ := by
      intro a ha
      obtain ⟨i, hi, rfl⟩ := List.mem_map.mp ha
      show Channels.new i (List.range (m + 1)) lat spb now = _
      unfold Channels.new
      rw [List.length_range]
    rw [mapM_option_eq_map _ _ _ hall, List.map_map]
    rfl

lemma demuxLoop_ne_assert (selfId p : Nat) :
    ∀ (inbound : List Message) (buf : Buffers),
      isAssertFailed (demuxLoop selfId p inbound buf) = false := by
  intro inbound
  induction inbound with
  | nil => intro buf; rfl
  | cons m rest ih =>
    intro buf
    by_cases hmp : m.fromId = p
    · simp only [demuxLoop, if_pos hmp]
      rfl
    · simp only [demuxLoop, if_neg hmp]
      cases fileAway selfId m buf with
      | none => rfl
      | some buf' => exact ih buf'

/-- The release-build body of `Channels::receive` has no code path that
reports the self-receive assertion: its only failure outcomes are blocking
and panicking. -/
lemma receiveCore_ne_assert (c : ChState) (p : Nat) :
    isAssertFailed (Channels.receiveCore c p) = false := by
  by_cases hguard : ¬ p < c.id ∧ p = 0
  · have h : receiveMatch c p = .error .panicked := by
      unfold receiveMatch
      rw [if_pos hguard]
    rw [receiveCore_of_match_err c p _ h]
    rfl
  · by_cases hred : reducedId c.id p < c.buffer.length
    · cases hslot : c.buffer.getD (reducedId c.id p) [] with
      | nil =>
        have hm := receiveMatch_eq_demux c p hguard hred hslot
        have ha := demuxLoop_ne_assert c.id p c.inbound c.buffer
        cases hd : demuxLoop c.id p c.inbound c.buffer with
        | error e =>
          rw [receiveCore_of_match_err c p e (by rw [hm]; exact hd)]
          rw [hd] at ha
          cases e with
          | blocked => rfl
          | panicked => rfl
          | assertFailed => simp [isAssertFailed] at ha
        | ok v =>
          rw [receiveCore_of_match_ok c p v.1 v.2.1 v.2.2 (by rw [hm, hd])]
          rfl
      | cons e q =>
        rw [receiveCore_of_match_ok c p e _ _
          (receiveMatch_eq_buffer c p hguard hred e q hslot)]
        rfl
    · have h : receiveMatch c p = .error .panicked := by
        unfold receiveMatch
        rw [if_neg hguard, if_neg hred]
      rw [receiveCore_of_match_err c p _ h]
      rfl

lemma foldlM_addSentBytes (L : Nat) :
    ∀ (k : Nat) (sent : List Nat), k ≤ sent.length →
      ∃ sent', (List.range k).foldlM (fun s i => addSentBytes s L i) sent = some sent' ∧
        sent'.length = sent.length ∧
        ∀ j, sent'.getD j 0 = if j < k then sent.getD j 0 + L else sent.getD j 0 := by
  intro k
  induction k with
  | zero =>
    intro sent _
    exact ⟨sent, rfl, rfl, fun j => by simp⟩
  | succ k ih =>
    intro sent hk
    obtain ⟨s₁, h1, hlen1, hget1⟩ := ih sent (by omega)
    have hklen : k < s₁.length := by omega
    refine ⟨s₁.set k (s₁.getD k 0 + L), ?_, ?_, ?_⟩
    · rw [List.range_succ, List.foldlM_append, h1]
      show (List.foldlM (fun s i => addSentBytes s L i) s₁ [k]) = _
      simp [List.foldlM, addSentBytes, hklen]
    · rw [List.length_set, hlen1]
    · intro j
      by_cases hjk : j = k
      · subst hjk
        rw [getD_set_self _ _ _ _ hklen, hget1 j, if_neg (by omega), if_pos (by omega)]
      · rw [getD_set_ne _ _ _ _ _ (fun h => hjk h.symm), hget1 j]
        by_cases hj : j < k
        · rw [if_pos hj, if_pos (by omega)]
        · rw [if_neg hj, if_neg (by omega)]

lemma send_eq (c : ChState) (pl : List Nat) (q now : Nat)
    (hq : q < c.senders.length) (hq2 : q < c.sentBytes.length) :
    Channels.send c pl q now
      = some ({ c with sentBytes := c.sentBytes.set q (c.sentBytes.getD q 0 + pl.length) },
          [(c.senders.getD q 0, ⟨now + c.latency, c.id, pl⟩)]) := by
  unfold Channels.send addSentBytes
  rw [if_pos hq, if_pos hq2]

lemma broadcast_spec (c : ChState) (pl : List Nat) (now : Nat)
    (hlen : c.senders.length ≤ c.sentBytes.length) :
    ∃ sent', Channels.broadcast c pl now
        = some ({ c with sentBytes := sent' },
            c.senders.map fun dest => (dest, ⟨now + c.latency, c.id, pl⟩)) ∧
      sent'.length = c.sentBytes.length ∧
      ∀ j, sent'.getD j 0 =
        if j < c.senders.length then c.sentBytes.getD j 0 + pl.length
        else c.sentBytes.getD j 0 := by
  obtain ⟨sent', h1, h2, h3⟩ := foldlM_addSentBytes pl.length c.senders.length c.sentBytes hlen
  refine ⟨sent', ?_, h2, h3⟩
  show (match (List.range c.senders.length).foldlM
      (fun sent i => addSentBytes sent pl.length i) c.sentBytes with
    | none => none
    | some sent => some ({ c with sentBytes := sent },
        c.senders.map fun dest => (dest, (⟨now + c.latency, c.id, pl⟩ : Message)))) = _
  rw [h1]

lemma sendMany_spec (q now : Nat) :
    ∀ (pls : List (List Nat)) (c : ChState),
      q < c.senders.length → q < c.sentBytes.length →
      ∃ c' pushes, sendMany q now c pls = some (c', pushes) ∧
        c'.senders = c.senders ∧ c'.sentBytes.length = c.sentBytes.length ∧
        c'.sentBytes.getD q 0 = c.sentBytes.getD q 0 + (pls.map List.length).sum ∧
        (∀ j, j ≠ q → c'.sentBytes.getD j 0 = c.sentBytes.getD j 0) ∧
        pushes = pls.map fun pl => (c.senders.getD q 0, ⟨now + c.latency, c.id, pl⟩) := by
  intro pls
  induction pls with
  | nil =>
    intro c _ _
    exact ⟨c, [], rfl, rfl, rfl, by simp, fun j _ => rfl, rfl⟩
  | cons pl rest ih =>
    intro c h1 h2
    have hsend := send_eq c pl q now h1 h2
    obtain ⟨c', pushes, hrun, hsenders, hlen, hq', hother, hpushes⟩ :=
      ih { c with sentBytes := c.sentBytes.set q (c.sentBytes.getD q 0 + pl.length) }
        h1 (by rw [List.length_set]; exact h2)
    refine ⟨c', (c.senders.getD q 0, ⟨now + c.latency, c.id, pl⟩) :: pushes,
      ?_, hsenders, by rw [hlen, List.length_set], ?_, ?_, ?_⟩
    · show (match Channels.send c pl q now with
        | none => none
        | some (c₁, pushes₁) =>
          match sendMany q now c₁ rest with
          | none => none
          | some (c₂, more) => some (c₂, pushes₁ ++ more)) = _
      rw [hsend]
      show (match sendMany q now
          { c with sentBytes := c.sentBytes.set q (c.sentBytes.getD q 0 + pl.length) } rest with
        | none => none
        | some (c₂, more) =>
            some (c₂, [(c.senders.getD q 0, (⟨now + c.latency, c.id, pl⟩ : Message))] ++ more)) = _
      rw [hrun]
      rfl
    · rw [hq', getD_set_self _ _ _ _ h2]
      show _ = c.sentBytes.getD q 0 + (pl.length + (rest.map List.length).sum)
      omega
    · intro j hj
      rw [hother j hj, getD_set_ne _ _ _ _ _ (fun h => hj h.symm)]
    · rw [hpushes]
      rfl

lemma range_getD (n j : Nat) (h : j < n) : (List.range n).getD j 0 = j := by
  rw [List.getD_eq_getElem?_getD, List.getElem?_range h]
  rfl

lemma getD_map_range {β : Type} (f : Nat → β) (n k : Nat) (d : β) (h : k < n) :
    (((List.range n).map f).getD k d) = f k := by
  rw [List.getD_eq_getElem?_getD, List.getElem?_map, List.getElem?_range h]
  rfl

lemma receiveCore_ok_timing (d : ChState) (q s2 : Nat) (b2 : List Nat) (d' : ChState)
    (h : Channels.receiveCore d q = .ok ((s2, b2), d')) :
    d.nextVacancy ≤ s2 ∧
    d'.nextVacancy = s2 + d.secondsPerByte * u32cast b2.length := by
  unfold Channels.receiveCore at h
  cases hm : receiveMatch d q with
  | error e =>
    rw [hm] at h
    cases h
  | ok v =>
    obtain ⟨⟨a, bs⟩, buf, inb⟩ := v
    rw [hm] at h
    simp only [finishReceive] at h
    injection h with h1
    injection h1 with h2 h3
    injection h2 with h4 h5
    subst h4
    subst h5
    subst h3
    exact ⟨Nat.le_max_left _ _, rfl⟩

/-- C1: on a well-formed endpoint of an `n`-party full mesh (`n ≥ 2` follows
from having both a party id and a distinct peer `p`), for any interleaving of
senders on the shared inbound conduit, `k` successive calls of
`Channels::receive(p)` return exactly the first `k` payloads that `p` sent,
in `p`'s send order (the pending sequence `pendingFrom`), drop none of them,
unblock as soon as `p`'s next message is pulled even if other senders'
messages arrived first, and leave every other sender's pending sequence
untouched. -/
theorem receive_per_sender_fifo (n p k : Nat) (c : ChState)
    (hwf : c.wf n) (hp : p < n) (hpid : p ≠ c.id)
    (hk : k ≤ (pendingFrom c p).length) :
    ∃ c', receiveN p c k = .ok (((pendingFrom c p).take k).map Prod.snd, c') ∧
      c'.wf n ∧ c'.id = c.id ∧
      pendingFrom c' p = (pendingFrom c p).drop k ∧
      (∀ s, s < n → s ≠ c.id → s ≠ p → pendingFrom c' s = pendingFrom c s) := by
  induction k generalizing c with
  | zero => exact ⟨c, rfl, hwf, rfl, rfl, fun s _ _ _ => rfl⟩
  | succ k ih =>
    rcases receiveCore_spec n c p hwf hp hpid with
      ⟨a, bs, c₁, hok, hpend, hothers, hwf₁, hid₁, _, _, _, _, _⟩ | ⟨_, hpend⟩
    · have hpid₁ : p ≠ c₁.id := by rw [hid₁]; exact hpid
      have hk₁ : k ≤ (pendingFrom c₁ p).length := by
        have hlen := congrArg List.length hpend
        rw [List.length_cons] at hlen
        omega
      obtain ⟨c', hrun, hwf', hid', hdrop, hoth'⟩ := ih c₁ hwf₁ hpid₁ hk₁
      refine ⟨c', ?_, hwf', by rw [hid', hid₁], ?_, ?_⟩
      · show (match Channels.receiveCore c p with
          | Except.error e => Except.error e
          | Except.ok (sb, c₂) =>
            match receiveN p c₂ k with
            | Except.error e => Except.error e
            | Except.ok (l, c₃) => Except.ok (sb.2 :: l, c₃)) = _
        rw [hok]
        show (match receiveN p c₁ k with
          | Except.error e => Except.error e
          | Except.ok (l, c₃) => Except.ok (bs :: l, c₃)) = _
        rw [hrun, hpend, List.take_succ_cons]
        rfl
      · rw [hdrop, hpend, List.drop_succ_cons]
      · intro s hs hsid hsp
        rw [hoth' s hs (by rw [hid₁]; exact hsid) hsp, hothers s hs hsid hsp]
    · rw [hpend] at hk
      simp at hk

/-- Concrete instance of C1: party 1 of a 2-party mesh with two inbound
messages from party 0 receives `[42]` then `[43]`, in send order. -/
theorem receive_per_sender_fifo_witness :
    ∃ c', receiveN 0 twoPending 2
        = .ok (((pendingFrom twoPending 0).take 2).map Prod.snd, c') ∧
      c'.wf 2 ∧ c'.id = twoPending.id ∧
      pendingFrom c' 0 = (pendingFrom twoPending 0).drop 2 ∧
      (∀ s, s < 2 → s ≠ twoPending.id → s ≠ 0 →
        pendingFrom c' s = pendingFrom twoPending s) :=
  receive_per_sender_fifo 2 0 2 twoPending (by decide) (by decide) (by decide) (by decide)

/-- C10: the endpoint's `next_vacancy` never decreases across a successful
`Channels::receive`, whatever the payload length (including zero): the new
value is `max(next_vacancy, arrival_time)` plus a non-negative transfer
duration. -/
theorem next_vacancy_monotone (c : ChState) (p start : Nat) (bs : List Nat) (c' : ChState)
    (h : Channels.receiveCore c p = .ok ((start, bs), c')) :
    c.nextVacancy ≤ c'.nextVacancy := by
  obtain ⟨h1, h2⟩ := receiveCore_ok_timing c p start bs c' h
  omega

/-- Concrete instance of C10: receiving the buffered message of `timedBefore`
moves `next_vacancy` from 3 to 7. -/
theorem next_vacancy_monotone_witness :
    timedBefore.nextVacancy ≤ timedAfter.nextVacancy :=
  next_vacancy_monotone timedBefore 0 5 [9] timedAfter (by rfl)

/-- C9: calling `Channels::receive` with `from_id` equal to the endpoint's
own id trips the `debug_assert_ne!` exactly in debug builds; with debug
assertions off the equality is never checked, the call proceeds into the
release body unchecked, and that body has no error path reporting this
misuse. -/
theorem receive_self_assert_debug_only (c : ChState) (fromId : Nat) :
    Channels.receive true c fromId
      = (if fromId = c.id then .error .assertFailed else Channels.receiveCore c fromId) ∧
    Channels.receive false c fromId = Channels.receiveCore c fromId ∧
    isAssertFailed (Channels.receiveCore c fromId) = false := by
  refine ⟨?_, ?_, receiveCore_ne_assert c fromId⟩
  · by_cases h : fromId = c.id
    · simp [Channels.receive, h]
    · simp [Channels.receive, h]
  · simp [Channels.receive]

/-- C5 (amended): when `Channels::receive` matches a message with arrival
time `a` and payload `bs`, the returned stream's start time is
`max(next_vacancy, a)` and `next_vacancy` becomes that start time plus
`seconds_per_byte * (bs.len() as u32)` — the length truncated modulo `2^32`
by the cast in the source, equal to `seconds_per_byte * len` whenever
`len < 2^32`. Consequently back-to-back receives are serialized: any next
successful receive starts no earlier than this start time plus this
transfer duration. -/
theorem receive_timing_next_vacancy (c : ChState) (p a : Nat) (bs : List Nat)
    (buf : Buffers) (inb : List Message)
    (hmatch : receiveMatch c p = .ok ((a, bs), buf, inb)) :
    ∃ c', Channels.receiveCore c p = .ok ((max c.nextVacancy a, bs), c') ∧
      c'.nextVacancy = max c.nextVacancy a + c.secondsPerByte * u32cast bs.length ∧
      ∀ q s2 b2 c'', Channels.receiveCore c' q = .ok ((s2, b2), c'') →
        max c.nextVacancy a + c.secondsPerByte * u32cast bs.length ≤ s2 := by
  refine ⟨(finishReceive c a bs buf inb).2, ?_, rfl, ?_⟩
  · rw [receiveCore_of_match_ok c p (a, bs) buf inb hmatch]
    rfl
  · intro q s2 b2 c'' h
    have h1 := (receiveCore_ok_timing _ q s2 b2 c'' h).1
    exact le_trans (le_of_eq rfl) h1

/-- Concrete instance of C5: the buffered message of `timedBefore` (arrival 5,
one byte, 2 seconds per byte, link busy until 3) starts transferring at
`max 3 5 = 5` and sets `next_vacancy` to 7. -/
theorem receive_timing_next_vacancy_witness :
    ∃ c', Channels.receiveCore timedBefore 0 = .ok ((max timedBefore.nextVacancy 5, [9]), c') ∧
      c'.nextVacancy
        = max timedBefore.nextVacancy 5 + timedBefore.secondsPerByte * u32cast [9].length ∧
      ∀ q s2 b2 c'', Channels.receiveCore c' q = .ok ((s2, b2), c'') →
        max timedBefore.nextVacancy 5 + timedBefore.secondsPerByte * u32cast [9].length ≤ s2 :=
  receive_timing_next_vacancy timedBefore 0 5 [9] [[]] [] (by rfl)

/-- C5 counterexample: for a buffered message of `2^32` bytes with one second
per byte and a free link, the claim predicts the new `next_vacancy`
`max(v, a) + seconds_per_byte * L = 2^32`, but `Channels::receive` computes
`seconds_per_byte * (L as u32) = 0` — the cast `bytes.len() as u32` wraps —
so `next_vacancy` stays 0. -/
theorem receive_u32_truncation_cex :
    Channels.receiveCore hugePayload 0
      = .ok ((0, List.replicate 4294967296 0), hugeAfter) ∧
    hugeAfter.nextVacancy = 0 ∧
    max hugePayload.nextVacancy 0
        + hugePayload.secondsPerByte * (List.replicate 4294967296 (0 : Nat)).length
      = 4294967296 := by
  have hlen : u32cast (List.replicate 4294967296 (0 : Nat)).length = 0 := by
    rw [u32cast, List.length_replicate, Nat.mod_self]
  refine ⟨?_, rfl, ?_⟩
  · have hm := receiveMatch_eq_buffer hugePayload 0 (by decide)
      (by show reducedId 1 0 < 1; decide)
      (0, List.replicate 4294967296 0) [] (by rfl)
    have hfin : finishReceive hugePayload 0 (List.replicate 4294967296 0)
        (hugePayload.buffer.set (reducedId hugePayload.id 0) []) hugePayload.inbound
        = ((0, List.replicate 4294967296 0), hugeAfter) := by
      unfold finishReceive
      rw [hlen]
      rfl
    rw [receiveCore_of_match_ok2 hugePayload 0 0 (List.replicate 4294967296 0) _ _ hm, hfin]
  · rw [List.length_replicate]
    rfl

/-- C7 (amended): on a well-formed endpoint, `Channels::receive(f)` for a
valid peer `f` never panics from out-of-bounds or underflowing buffer
indexing — provided every inbound message carries a sender id that is a
valid party other than the receiving endpoint itself. (Messages with
`from_id` equal to the endpoint's own id, which the endpoint's own
`broadcast` does produce, are excluded: for an endpoint with id 0 such a
message makes the pull loop's `from_id - 1` underflow and panic, see the
counterexample.) -/
theorem receive_no_panic_valid_senders (n : Nat) (c : ChState) (f : Nat)
    (hwf : c.wf n) (hf : f < n) (hfid : f ≠ c.id) :
    Channels.receiveCore c f ≠ .error .panicked := by
  rcases receiveCore_spec n c f hwf hf hfid with
    ⟨a, bs, c', hok, _⟩ | ⟨hblk, _⟩
  · rw [hok]
    intro h
    exact Except.noConfusion h
  · rw [hblk]
    intro h
    injection h with h2
    exact RecvErr.noConfusion h2

/-- Concrete instance of C7: party 1 with one valid inbound message from
party 0 receives from 0 without panicking. -/
theorem receive_no_panic_valid_senders_witness :
    Channels.receiveCore onePending 0 ≠ .error .panicked :=
  receive_no_panic_valid_senders 2 onePending 0 (by decide) (by decide) (by decide)

/-- C7 counterexample: endpoint 0 of a 2-party mesh broadcasts, which pushes
a message addressed to party 0 itself (`from_id = 0 = self.id`); when that
endpoint then calls `receive(1)` with this self-message on its inbound
conduit, the pull loop computes buffer slot `from_id - 1 = 0 - 1`, a `usize`
underflow, and panics. -/
theorem receive_self_message_panic_cex :
    (FullMesh.instantiate 0 0 2 0).map (fun l => l.getD 0 meshEp0) = some meshEp0 ∧
    Channels.broadcast meshEp0 [5] 0
      = some ({ meshEp0 with sentBytes := [1, 1] },
          [(0, ⟨0, 0, [5]⟩), (1, ⟨0, 0, [5]⟩)]) ∧
    Channels.receiveCore { meshEp0 with inbound := [⟨0, 0, [5]⟩] } 1
      = .error .panicked := by
  refine ⟨rfl, rfl, rfl⟩

/-- C2 (amended): on a FullMesh endpoint of `n` parties,
`Channels::broadcast(payload)` pushes one message (with `from_id` the
broadcaster's id) to every one of the `n` parties — including the
broadcasting party itself, whose sender slot `FullMesh::instantiate` also
fills — and increments all `n` per-party sent-byte counters, each by exactly
`payload.len()`. -/
theorem broadcast_all_parties (n : Nat) (c : ChState) (pl : List Nat) (now : Nat)
    (hsenders : c.senders = List.range n) (hbytes : c.sentBytes.length = n) :
    ∃ sent', Channels.broadcast c pl now
        = some ({ c with sentBytes := sent' },
            (List.range n).map fun j => (j, ⟨now + c.latency, c.id, pl⟩)) ∧
      sent'.length = n ∧
      ∀ j, j < n → sent'.getD j 0 = c.sentBytes.getD j 0 + pl.length := by
  obtain ⟨sent', h1, h2, h3⟩ := broadcast_spec c pl now
    (by rw [hsenders, hbytes, List.length_range])
  refine ⟨sent', ?_, by rw [h2, hbytes], ?_⟩
  · rw [h1, hsenders]
  · intro j hj
    rw [h3 j, if_pos (by rw [hsenders, List.length_range]; exact hj)]

/-- Concrete instance of C2 (amended): endpoint 0 of a 2-party mesh
broadcasting one byte pushes to both parties and bumps both counters. -/
theorem broadcast_all_parties_witness :
    ∃ sent', Channels.broadcast meshEp0 [7] 0
        = some ({ meshEp0 with sentBytes := sent' },
            (List.range 2).map fun j => (j, ⟨0 + meshEp0.latency, meshEp0.id, [7]⟩)) ∧
      sent'.length = 2 ∧
      ∀ j, j < 2 → sent'.getD j 0 = meshEp0.sentBytes.getD j 0 + [7].length :=
  broadcast_all_parties 2 meshEp0 [7] 0 (by rfl) (by rfl)

/-- C2 counterexample: endpoint 0 of a 2-party mesh broadcasts one byte; the
push destinations are `[0, 1]` — including destination 0, the broadcaster's
own id — and both sent-byte counters are incremented, not just the single
peer's (`n - 1 = 1`) counter the claim allows. -/
theorem broadcast_includes_self_cex :
    (Channels.broadcast meshEp0 [7] 0).map
        (fun r => (r.2.map Prod.fst, r.1.sentBytes))
      = some ([0, 1], [1, 1]) ∧
    meshEp0.id = 0 :=
  ⟨rfl, rfl⟩

/-- C3 counterexample: endpoint 0 of `FullMesh::instantiate(2)` holds 2
outbound sender slots, not `n - 1 = 1`, and its slot 0 is addressed to party
0 — its own id — so the claimed self-free reduced-id layout of the outbound
slots does not hold. -/
theorem mesh_outbound_slots_cex :
    ((FullMesh.instantiate 0 0 2 0).map fun l => (l.getD 0 meshEp0).senders.length)
      = some 2 ∧
    ((FullMesh.instantiate 0 0 2 0).map fun l => (l.getD 0 meshEp0).senders.getD 0 3)
      = some 0 ∧
    ((FullMesh.instantiate 0 0 2 0).map fun l => (l.getD 0 meshEp0).id) = some 0 :=
  ⟨rfl, rfl, rfl⟩

/-- C3 (amended): every endpoint `k` of `FullMesh::instantiate(n)` has `n`
outbound sender slots — slot `j` addressed to party `j`, so slot `k` is
addressed to the endpoint itself — and `n - 1` reorder buffer slots; the
reduced-id mapping (ids below self at `id`, ids above self at `id - 1`),
which the code uses only for the reorder buffers, is a bijection from the
party ids other than `k` onto the buffer slot indices `0..n-1`. -/
theorem mesh_slot_invariants (lat spb n now k : Nat) (hk : k < n) :
    ∃ eps, FullMesh.instantiate lat spb n now = some eps ∧ eps.length = n ∧
      (eps.getD k meshEp0).id = k ∧
      (eps.getD k meshEp0).senders.length = n ∧
      (eps.getD k meshEp0).buffer.length = n - 1 ∧
      (eps.getD k meshEp0).sentBytes.length = n ∧
      (∀ j, j < n → (eps.getD k meshEp0).senders.getD j 0 = j) ∧
      (∀ s, s < n → s ≠ k → reducedId k s < n - 1) ∧
      (∀ s t, s < n → t < n → s ≠ k → t ≠ k → reducedId k s = reducedId k t → s = t) ∧
      (∀ r, r < n - 1 → ∃ s, s < n ∧ s ≠ k ∧ reducedId k s = r) := by
  have hget : (((List.range n).map fun id =>
      (⟨id, List.range n, List.replicate (n - 1) [], List.replicate n 0,
        lat, spb, now, []⟩ : ChState)).getD k meshEp0)
      = ⟨k, List.range n, List.replicate (n - 1) [], List.replicate n 0,
          lat, spb, now, []⟩ :=
    getD_map_range _ n k meshEp0 hk
  refine ⟨_, instantiate_eq lat spb n now, ?_, ?_, ?_, ?_, ?_, ?_, ?_, ?_, ?_⟩
  · rw [List.length_map, List.length_range]
  · rw [hget]
  · rw [hget]
    exact List.length_range n
  · rw [hget]
    exact List.length_replicate (n - 1) []
  · rw [hget]
    exact List.length_replicate n 0
  · intro j hj
    rw [hget]
    exact range_getD n j hj
  · intro s hs hsk
    exact reducedId_lt n k s hk hs hsk
  · intro s t hs ht hsk htk h
    exact reducedId_inj k s t hsk htk h
  · intro r hr
    exact reducedId_surj n k r hk hr

/-- Concrete instance of C3 (amended) at `n = 2`, endpoint 0. -/
theorem mesh_slot_invariants_witness :
    ∃ eps, FullMesh.instantiate 3 4 2 5 = some eps ∧ eps.length = 2 ∧
      (eps.getD 0 meshEp0).id = 0 ∧
      (eps.getD 0 meshEp0).senders.length = 2 ∧
      (eps.getD 0 meshEp0).buffer.length = 2 - 1 ∧
      (eps.getD 0 meshEp0).sentBytes.length = 2 ∧
      (∀ j, j < 2 → (eps.getD 0 meshEp0).senders.getD j 0 = j) ∧
      (∀ s, s < 2 → s ≠ 0 → reducedId 0 s < 2 - 1) ∧
      (∀ s t, s < 2 → t < 2 → s ≠ 0 → t ≠ 0 → reducedId 0 s = reducedId 0 t → s = t) ∧
      (∀ r, r < 2 - 1 → ∃ s, s < 2 ∧ s ≠ 0 ∧ reducedId 0 s = r) :=
  mesh_slot_invariants 3 4 2 5 0 (by decide)

/-- C4: `Channels::send(payload, to_id)` on a FullMesh endpoint pushes
exactly one message onto the pipe addressed to `to_id`, carrying
`from_id = self.id`, the payload itself, and arrival time `now + latency`;
it adds `payload.len()` to the `to_id` counter, changes no other counter,
and `k` sends to the same peer accumulate the sum of the payload sizes. -/
theorem send_accounting (n : Nat) (c : ChState) (pl : List Nat) (q now : Nat)
    (hsenders : c.senders = List.range n) (hbytes : c.sentBytes.length = n) (hq : q < n) :
    Channels.send c pl q now
      = some ({ c with sentBytes := c.sentBytes.set q (c.sentBytes.getD q 0 + pl.length) },
          [(q, ⟨now + c.latency, c.id, pl⟩)]) ∧
    (c.sentBytes.set q (c.sentBytes.getD q 0 + pl.length)).getD q 0
      = c.sentBytes.getD q 0 + pl.length ∧
    (∀ j, j ≠ q → (c.sentBytes.set q (c.sentBytes.getD q 0 + pl.length)).getD j 0
        = c.sentBytes.getD j 0) ∧
    (∀ pls : List (List Nat), ∃ c' pushes, sendMany q now c pls = some (c', pushes) ∧
        c'.sentBytes.getD q 0 = c.sentBytes.getD q 0 + (pls.map List.length).sum) := by
  have hq1 : q < c.senders.length := by rw [hsenders, List.length_range]; exact hq
  have hq2 : q < c.sentBytes.length := by rw [hbytes]; exact hq
  refine ⟨?_, getD_set_self _ _ _ _ hq2,
    fun j hj => getD_set_ne _ _ _ _ _ (fun h => hj h.symm), ?_⟩
  · rw [send_eq c pl q now hq1 hq2, hsenders, range_getD n q hq]
  · intro pls
    obtain ⟨c', pushes, hrun, _, _, hsum, _, _⟩ := sendMany_spec q now pls c hq1 hq2
    exact ⟨c', pushes, hrun, hsum⟩

/-- Concrete instance of C4: endpoint 0 of a 2-party mesh sending 3 bytes to
party 1. -/
theorem send_accounting_witness :
    Channels.send meshEp0 [1, 2, 3] 1 0
      = some ({ meshEp0 with sentBytes :=
            meshEp0.sentBytes.set 1 (meshEp0.sentBytes.getD 1 0 + [1, 2, 3].length) },
          [(1, ⟨0 + meshEp0.latency, meshEp0.id, [1, 2, 3]⟩)]) ∧
    (meshEp0.sentBytes.set 1 (meshEp0.sentBytes.getD 1 0 + [1, 2, 3].length)).getD 1 0
      = meshEp0.sentBytes.getD 1 0 + [1, 2, 3].length ∧
    (∀ j, j ≠ 1 →
      (meshEp0.sentBytes.set 1 (meshEp0.sentBytes.getD 1 0 + [1, 2, 3].length)).getD j 0
        = meshEp0.sentBytes.getD j 0) ∧
    (∀ pls : List (List Nat), ∃ c' pushes, sendMany 1 0 meshEp0 pls = some (c', pushes) ∧
        c'.sentBytes.getD 1 0 = meshEp0.sentBytes.getD 1 0 + (pls.map List.length).sum) :=
  send_accounting 2 meshEp0 [1, 2, 3] 1 0 (by rfl) (by rfl) (by decide)

/-- C6 (amended): the input-count precondition of `Protocol::evaluate` is a
`debug_assert_eq!`: with debug assertions compiled in, a mismatch aborts
before the repetition's workers are spawned; in optimized builds the check
is compiled out, evaluation proceeds, and the worker-spawning zip silently
truncates to the shorter of the party list and the input list. -/
theorem evaluate_input_check_debug_only (nParties inputsLen : Nat) :
    evaluateWorkers true nParties inputsLen
      = (if inputsLen = nParties then some nParties else none) ∧
    evaluateWorkers false nParties inputsLen = some (min nParties inputsLen) := by
  constructor
  · by_cases h : inputsLen = nParties
    · subst h
      simp [evaluateWorkers]
    · simp [evaluateWorkers, h]
  · simp [evaluateWorkers]

/-- C6 counterexample: with 2 parties and 1 input, an optimized build does
not abort — it spawns one worker, silently truncating — while only a debug
build aborts; the mismatch is not fatal in every build. -/
theorem evaluate_release_truncation_cex :
    evaluateWorkers false 2 1 = some 1 ∧ evaluateWorkers true 2 1 = none :=
  ⟨rfl, rfl⟩

/-- C8: `FullMesh::instantiate(n)` never fails — in particular the
`sender_count - 1` subtraction in `Channels::new` never underflows, because
every endpoint is built from `n ≥ 1` senders — and yields exactly one
endpoint per party id in `0..n`; for `n = 0` it returns no endpoints and for
`n = 1` the single endpoint has zero reorder buffers and no peer (its one
sender slot is addressed to itself). -/
theorem instantiate_total_per_party (lat spb n now : Nat) :
    FullMesh.instantiate lat spb n now
      = some ((List.range n).map fun id =>
          ⟨id, List.range n, List.replicate (n - 1) [], List.replicate n 0,
           lat, spb, now, []⟩) ∧
    ((FullMesh.instantiate lat spb n now).getD []).length = n ∧
    FullMesh.instantiate lat spb 0 now = some [] ∧
    FullMesh.instantiate lat spb 1 now = some [⟨0, [0], [], [0], lat, spb, now, []⟩] := by
  refine ⟨instantiate_eq lat spb n now, ?_, ?_, ?_⟩
  · rw [instantiate_eq, Option.getD_some, List.length_map, List.length_range]
  · rw [instantiate_eq]
    rfl
  · rw [instantiate_eq]
    rfl

end MpcBench
